import Mathlib

/-!
Shallow embedding of the validation core of the web-identity-schemas
repository (zod and valibot schema definitions for JOSE, DID and
Verifiable Credential documents), together with theorems settling the
frozen claims about it.

Schemas are embedded as executable acceptance predicates (and, where a
schema transforms its input, parse functions returning an Option) over a
structural JSON model.  Regex-based string validators are embedded as
character-list matchers; each doc comment quotes the source pattern.
-/

namespace WebIdentity

/-- Characters admitted by the base64url character class A-Za-z0-9_- used
throughout the repository (zod and valibot Base64UrlSchema, JWS and JWT
string patterns). -/
def b64Char (c : Char) : Bool :=
  c.isAlpha || c.isDigit || c == '-' || c == '_'

/-- Characters admitted by the standard base64 alphabet A-Za-z0-9+/ used by
Base64Schema (valibot shared/base-64.ts). -/
def b64StdChar (c : Char) : Bool :=
  c.isAlpha || c.isDigit || c == '+' || c == '/'

/-- Embeds the regex of Base64UrlSchema, which is
caret [A-Za-z0-9_-]+ dollar : a non-empty run of base64url characters
(zod shared/base-64-url.ts and valibot shared/base-64.ts). -/
def base64UrlOk (s : String) : Bool :=
  !s.data.isEmpty && s.data.all b64Char

/-- Embeds the regex of Base64Schema (valibot shared/base-64.ts):
any number of full 4-character base64 groups, optionally terminated by a
2-character group padded with == or a 3-character group padded with =. -/
def base64Groups : List Char → Bool
  | [] => true
  | [a, b, '=', '='] => b64StdChar a && b64StdChar b
  | [a, b, c, '='] => b64StdChar a && b64StdChar b && b64StdChar c
  | a :: b :: c :: d :: rest =>
      b64StdChar a && b64StdChar b && b64StdChar c && b64StdChar d &&
        base64Groups rest
  | _ => false

/-- Acceptance of Base64Schema on a string. -/
def base64Ok (s : String) : Bool := base64Groups s.data

/-- Splitting a character list at every occurrence of a separator, with the
semantics of the JavaScript String.split method for a one-character
separator: the result always has one part more than the number of
separator occurrences, and the empty input yields one empty part. -/
def splitOn (sep : Char) : List Char → List (List Char)
  | [] => [[]]
  | c :: cs =>
    match splitOn sep cs with
    | [] => [[]]
    | p :: ps => if c == sep then [] :: p :: ps else (c :: p) :: ps

theorem splitOn_ne_nil (sep : Char) (cs : List Char) : splitOn sep cs ≠ [] := by
  induction cs with
  | nil => simp [splitOn]
  | cons c cs ih =>
    simp only [splitOn]
    rcases h : splitOn sep cs with _ | ⟨p, ps⟩
    · simp
    · by_cases hc : c == sep <;> simp [hc]

theorem splitOn_not_mem {sep : Char} {cs : List Char} (h : sep ∉ cs) :
    splitOn sep cs = [cs] := by
  induction cs with
  | nil => rfl
  | cons c cs ih =>
    have hc : c ≠ sep := fun hc => h (hc ▸ List.mem_cons_self c cs)
    have ht : sep ∉ cs := fun ht => h (List.mem_cons_of_mem c ht)
    simp only [splitOn, ih ht]
    simp [beq_iff_eq, hc]

theorem splitOn_append {sep : Char} {h : List Char} (t : List Char)
    (hh : sep ∉ h) : splitOn sep (h ++ sep :: t) = h :: splitOn sep t := by
  induction h with
  | nil =>
    simp only [List.nil_append, splitOn]
    rcases hs : splitOn sep t with _ | ⟨p, ps⟩
    · exact absurd hs (splitOn_ne_nil sep t)
    · simp
  | cons c cs ih =>
    have hc : c ≠ sep := fun hc => hh (hc ▸ List.mem_cons_self c cs)
    have ht : sep ∉ cs := fun ht => hh (List.mem_cons_of_mem c ht)
    simp only [List.cons_append, splitOn, List.append_eq]
    rw [ih ht]
    simp [beq_iff_eq, hc]

theorem splitOn_parts {sep : Char} {cs : List Char} :
    ∀ p ∈ splitOn sep cs, sep ∉ p := by
  induction cs with
  | nil => intro p hp; simp [splitOn] at hp; simp [hp]
  | cons c cs ih =>
    intro p hp
    simp only [splitOn] at hp
    rcases hs : splitOn sep cs with _ | ⟨q, qs⟩
    · exact absurd hs (splitOn_ne_nil sep cs)
    · rw [hs] at hp
      by_cases hc : c == sep
      · simp [hc] at hp
        rcases hp with hp | hp | hp
        · simp [hp]
        · exact hp ▸ ih q (hs ▸ List.mem_cons_self q qs)
        · exact ih p (hs ▸ List.mem_cons_of_mem q hp)
      · simp [hc] at hp
        rcases hp with hp | hp
        · subst hp
          intro hmem
          rcases List.mem_cons.mp hmem with hmem | hmem
          · exact absurd (beq_iff_eq.mpr hmem.symm) (by simpa using hc)
          · exact ih q (hs ▸ List.mem_cons_self q qs) hmem
        · exact ih p (hs ▸ List.mem_cons_of_mem q hp)

/-- Rejoining the parts produced by splitOn with the separator recovers the
original list. -/
def joinSep (sep : Char) : List (List Char) → List Char
  | [] => []
  | [x] => x
  | x :: xs => x ++ sep :: joinSep sep xs

theorem joinSep_splitOn (sep : Char) (cs : List Char) :
    joinSep sep (splitOn sep cs) = cs := by
  induction cs with
  | nil => rfl
  | cons c cs ih =>
    simp only [splitOn]
    rcases hs : splitOn sep cs with _ | ⟨q, qs⟩
    · exact absurd hs (splitOn_ne_nil sep cs)
    · rw [hs] at ih
      by_cases hc : c == sep
      · have : c = sep := beq_iff_eq.mp hc
        subst this
        simp only [hc, if_true]
        simp only [joinSep]
        rcases qs with _ | ⟨r, rs⟩ <;> simp_all [joinSep]
      · simp only [hc, if_false]
        rcases qs with _ | ⟨r, rs⟩ <;> simp_all [joinSep]

theorem splitOn_eq_three_iff {sep : Char} {cs a b c : List Char} :
    splitOn sep cs = [a, b, c] ↔
      (cs = a ++ sep :: (b ++ sep :: c) ∧ sep ∉ a ∧ sep ∉ b ∧ sep ∉ c) := by
  constructor
  · intro h
    refine ⟨?_, ?_, ?_, ?_⟩
    · have := joinSep_splitOn sep cs
      rw [h] at this
      simpa [joinSep] using this.symm
    · exact splitOn_parts a (h ▸ (by simp : a ∈ [a, b, c]))
    · exact splitOn_parts b (h ▸ (by simp : b ∈ [a, b, c]))
    · exact splitOn_parts c (h ▸ (by simp : c ∈ [a, b, c]))
  · rintro ⟨rfl, ha, hb, hc⟩
    rw [splitOn_append _ ha, splitOn_append _ hb, splitOn_not_mem hc]

/-- Embeds the regex of JwsStringSchema (valibot jose/jws.ts, zod
jose/jws.ts): caret [A-Za-z0-9_-]+ dot [A-Za-z0-9_-]* dot [A-Za-z0-9_-]+
dollar.  Since the base64url class excludes the dot, a full match is
exactly a split into three dot-free segments: non-empty header, possibly
empty payload, non-empty signature. -/
def jwsStringOk (s : String) : Bool :=
  match splitOn '.' s.data with
  | [h, p, g] =>
      !h.isEmpty && !g.isEmpty &&
        h.all b64Char && p.all b64Char && g.all b64Char
  | _ => false

/-- Embeds the regex of DetachedJwsStringSchema (valibot jose/jws.ts, zod
jose/jwa.ts): caret [A-Za-z0-9_-]+ dot dot [A-Za-z0-9_-]+ dollar, i.e.
non-empty header, empty middle segment, non-empty signature. -/
def detachedJwsOk (s : String) : Bool :=
  match splitOn '.' s.data with
  | [h, p, g] =>
      !h.isEmpty && p.isEmpty && !g.isEmpty && h.all b64Char && g.all b64Char
  | _ => false

/-- Embeds the regex of JwtStringSchema (zod jose/jwt-string.ts):
caret [A-Za-z0-9_-]+ dot [A-Za-z0-9_-]+ dot [A-Za-z0-9_-]* dollar, i.e.
non-empty header, non-empty payload, possibly empty signature. -/
def jwtStringOk (s : String) : Bool :=
  match splitOn '.' s.data with
  | [h, p, g] =>
      !h.isEmpty && !p.isEmpty &&
        h.all b64Char && p.all b64Char && g.all b64Char
  | _ => false

/-- Characters admitted after the leading letter of a URI scheme in
UriSchema: the class [a-zA-Z0-9+.-]. -/
def schemeChar (c : Char) : Bool :=
  c.isAlpha || c.isDigit || c == '+' || c == '.' || c == '-'

/-- Characters matched by an unescaped dot in a JavaScript regex: anything
except the four line terminators. -/
def jsAnyChar (c : Char) : Bool :=
  !(c == '\n' || c == '\r' || c == '\u2028' || c == '\u2029')

/-- Scans the remainder of a string for the scheme-colon-rest shape of
UriSchema.  Because the colon is not a scheme character, the scheme run
must end at the first colon, after which the unanchored dot-plus needs one
non-line-terminator character. -/
def uriTail : List Char → Bool
  | [] => false
  | c :: rest =>
    if c == ':' then
      match rest with
      | [] => false
      | d :: _ => jsAnyChar d
    else if schemeChar c then uriTail rest
    else false

/-- Embeds the regex of UriSchema (zod shared/uri.ts):
caret [a-zA-Z][a-zA-Z0-9+.-]* colon dot-plus (not anchored at the end):
a letter, a run of scheme characters, a colon, and at least one more
character. -/
def uriOk (s : String) : Bool :=
  match s.data with
  | [] => false
  | c :: rest => c.isAlpha && uriTail rest

/-- Consumes exactly n decimal digits, returning the remaining characters. -/
def takeDigits : Nat → List Char → Option (List Char)
  | 0, cs => some cs
  | _ + 1, [] => none
  | n + 1, c :: cs => if c.isDigit then takeDigits n cs else none

/-- Consumes one expected literal character. -/
def expectChar (ch : Char) : List Char → Option (List Char)
  | [] => none
  | c :: cs => if c == ch then some cs else none

/-- Timezone tail of DateTimeStampSchema: either a literal Z ending the
string, or a sign, two digits, a colon and two digits ending the string. -/
def dtTzOk : List Char → Bool
  | ['Z'] => true
  | c :: rest =>
    if c == '+' || c == '-' then
      match takeDigits 2 rest with
      | some (':' :: r) => takeDigits 2 r == some []
      | _ => false
    else false
  | [] => false

/-- After the seconds of DateTimeStampSchema: an optional group of a dot
and exactly three digits, then the timezone.  The alternation is
deterministic because the timezone cannot start with a dot. -/
def dtAfterSeconds : List Char → Bool
  | '.' :: rest =>
    match takeDigits 3 rest with
    | some r => dtTzOk r
    | none => false
  | cs => dtTzOk cs

/-- Embeds the regex of DateTimeStampSchema (zod shared/json-ld.ts and the
valibot counterpart): four digits, dash, two digits, dash, two digits, T,
two digits, colon, two digits, colon, two digits, an optional dot with
exactly three digits, then Z or a numeric offset, anchored at both ends. -/
def dateTimeStampOk (s : String) : Bool :=
  match takeDigits 4 s.data with
  | none => false
  | some r =>
    match expectChar '-' r with
    | none => false
    | some r =>
      match takeDigits 2 r with
      | none => false
      | some r =>
        match expectChar '-' r with
        | none => false
        | some r =>
          match takeDigits 2 r with
          | none => false
          | some r =>
            match expectChar 'T' r with
            | none => false
            | some r =>
              match takeDigits 2 r with
              | none => false
              | some r =>
                match expectChar ':' r with
                | none => false
                | some r =>
                  match takeDigits 2 r with
                  | none => false
                  | some r =>
                    match expectChar ':' r with
                    | none => false
                    | some r =>
                      match takeDigits 2 r with
                      | none => false
                      | some r => dtAfterSeconds r

/-- Numeric value of a two-digit character pair. -/
def twoDigitVal (a b : Char) : Nat :=
  (a.toNat - 48) * 10 + (b.toNat - 48)

/-- Gregorian leap-year test encoded by the calendar-aware date regex of
zod v4 on four-digit years: divisible by four and not by one hundred, or
divisible by four hundred. -/
def zodLeapYear (y : Nat) : Bool :=
  (y % 4 == 0 && y % 100 != 0) || y % 400 == 0

/-- Month/day validity encoded by the calendar-aware date alternation of
the zod v4 datetime regex. -/
def zodDateValid (y m d : Nat) : Bool :=
  if m == 1 || m == 3 || m == 5 || m == 7 || m == 8 || m == 10 || m == 12 then
    1 ≤ d && d ≤ 31
  else if m == 4 || m == 6 || m == 9 || m == 11 then
    1 ≤ d && d ≤ 30
  else if m == 2 then
    (1 ≤ d && d ≤ 28) || (d == 29 && zodLeapYear y)
  else false

/-- Fraction-then-Z tail: one or more digits followed by a final Z. -/
def digitsThenZ : List Char → Bool
  | ['Z'] => true
  | c :: rest => c.isDigit && digitsThenZ rest
  | [] => false

/-- Time part of the zod v4 datetime regex with default options: hours
00-23, colon, minutes 00-59, then optionally colon, seconds 00-59 and an
optional fractional part of one or more digits, all terminated by the
mandatory Z (offsets and local times are disabled by default). -/
def zodTimeZOk : List Char → Bool
  | h1 :: h2 :: ':' :: m1 :: m2 :: rest =>
    h1.isDigit && h2.isDigit && m1.isDigit && m2.isDigit &&
      twoDigitVal h1 h2 ≤ 23 && twoDigitVal m1 m2 ≤ 59 &&
      (match rest with
       | ['Z'] => true
       | ':' :: s1 :: s2 :: rest2 =>
         s1.isDigit && s2.isDigit && twoDigitVal s1 s2 ≤ 59 &&
           (match rest2 with
            | ['Z'] => true
            | '.' :: c :: fr => c.isDigit && digitsThenZ fr
            | _ => false)
       | _ => false)
  | _ => false

/-- Embeds the acceptance of z.iso.datetime() from zod v4 (used for the
issuanceDate, expirationDate, validFrom and validUntil credential fields):
a calendar-valid four-digit-year date, a T, and a 24-hour time with
optional seconds and fraction, terminated by Z. -/
def zodIsoDatetimeOk (s : String) : Bool :=
  match s.data with
  | y1 :: y2 :: y3 :: y4 :: '-' :: m1 :: m2 :: '-' :: d1 :: d2 :: 'T' :: rest =>
    y1.isDigit && y2.isDigit && y3.isDigit && y4.isDigit &&
      m1.isDigit && m2.isDigit && d1.isDigit && d2.isDigit &&
      zodDateValid (twoDigitVal y1 y2 * 100 + twoDigitVal y3 y4)
        (twoDigitVal m1 m2) (twoDigitVal d1 d2) &&
      zodTimeZOk rest
  | _ => false

/-- Structural model of JSON values.  Numbers are modelled as rationals,
which captures the integrality and sign checks the schemas perform. -/
inductive Json where
  | null
  | bool (b : Bool)
  | num (q : Rat)
  | str (s : String)
  | arr (xs : List Json)
  | obj (kvs : List (String × Json))

/-- Field lookup in a JSON object, first binding wins (JavaScript objects
carry at most one binding per key). -/
def getField (kvs : List (String × Json)) (k : String) : Option Json :=
  (kvs.find? fun kv => kv.1 == k).map (fun kv => kv.2)

/-- Validator of a required object field: the key must be present and its
value must satisfy the field schema. -/
def reqF (kvs : List (String × Json)) (k : String) (p : Json → Bool) : Bool :=
  match getField kvs k with
  | some v => p v
  | none => false

/-- Validator of an optional object field: an absent key passes, a present
value must satisfy the field schema. -/
def optF (kvs : List (String × Json)) (k : String) (p : Json → Bool) : Bool :=
  match getField kvs k with
  | some v => p v
  | none => true

/-- Acceptance of a bare string schema (z.string / v.string). -/
def isStr : Json → Bool
  | .str _ => true
  | _ => false

/-- Acceptance of a string schema refined by a predicate on the string. -/
def strOk (p : String → Bool) : Json → Bool
  | .str s => p s
  | _ => false

/-- Acceptance of a union of a schema with an array of that schema, the
pervasive z.union such-and-array pattern of the credential schemas. -/
def orArr (p : Json → Bool) (j : Json) : Bool :=
  p j ||
    (match j with
     | .arr xs => xs.all p
     | _ => false)

/-- Acceptance of a union of string and array-of-string (the domain field
of proofs and the aud claim of JWT payloads). -/
def strOrStrArr (j : Json) : Bool :=
  match j with
  | .str _ => true
  | .arr xs => xs.all isStr
  | _ => false

/-- The includesAll helper of zod shared/utils.ts and valibot
shared/utils.ts: a refinement accepting a candidate list exactly when every
required value occurs somewhere in it. -/
def includesAll (values : List String) (val : List String) : Bool :=
  values.all fun v => val.contains v

/-- The one-level flattening a JavaScript singleton-wrap-then-flat
performs: the expression [val].flat() yields the elements of val when val
is an array and the one-element array [val] otherwise. -/
def jsFlat : Json → List Json
  | .arr xs => xs
  | j => [j]

/-- The oneOrMany combinator of zod shared/utils.ts and valibot
shared/utils.ts, generic over the element schema p (whose accepted values
parse to themselves, as for the string and number elements used in the
repository): a union of the element schema with an array of it, whose
result is wrapped in a singleton and flattened one level. -/
def oneOrManyParse (p : Json → Bool) (j : Json) : Option Json :=
  if p j then some (Json.arr (jsFlat j))
  else
    match j with
    | .arr xs => if xs.all p then some (Json.arr xs) else none
    | _ => none

/-- Extracts the underlying strings of a parsed array of z.string values. -/
def jsonStrs : List Json → Option (List String)
  | [] => some []
  | .str s :: rest => (jsonStrs rest).map fun ss => s :: ss
  | _ => none

/-- Elementwise comparison of a JSON array against a list of expected
string literals, the acceptance of a z.tuple of string literals. -/
def eqStrList : List Json → List String → Bool
  | [], [] => true
  | Json.str s :: xs, t :: ts => s == t && eqStrList xs ts
  | _, _ => false

/-- Tests whether the first element of a parsed type array is the literal
string VerifiableCredential, the refinement predicate of the unconstrained
zod credentialTypeSchema. -/
def headIsVC (xs : List Json) : Bool :=
  match xs with
  | Json.str s :: _ => s == "VerifiableCredential"
  | _ => false

/-- The unconstrained credentialTypeSchema of zod vc/core.ts (lines 48-67
of the current file): a union of the literal VerifiableCredential, the
one-element tuple of that literal, and a non-empty string array refined to
have VerifiableCredential first; a bare string result is wrapped into a
one-element array by the final transform. -/
def credentialTypeParse (j : Json) : Option Json :=
  match j with
  | .str s =>
    if s == "VerifiableCredential" then
      some (Json.arr [Json.str "VerifiableCredential"])
    else none
  | .arr xs =>
    if eqStrList xs ["VerifiableCredential"] ||
        (!xs.isEmpty && xs.all isStr && headIsVC xs) then
      some (Json.arr xs)
    else none
  | _ => none

/-- The constrained credentialTypeSchema of zod vc/core.ts (lines 38-47):
a z.tuple of literals, VerifiableCredential followed by each declared
additional type, matched exactly (a single declared string becomes a
two-element tuple). -/
def credentialTypeTupleOk (additionalTypes : List String) (j : Json) : Bool :=
  match j with
  | .arr xs => eqStrList xs ("VerifiableCredential" :: additionalTypes)
  | _ => false

/-- The containment-policy credentialTypeSchema shared by the second zod
variant of vc/core.ts (lines 290-317) and valibot vc/core.ts (lines
44-68): one-or-many normalization over strings piped into an includesAll
refinement over VerifiableCredential and the declared additional types. -/
def credentialTypeContainParse (additionalTypes : List String) (j : Json) :
    Option Json :=
  let requiredTypes := "VerifiableCredential" :: additionalTypes
  match oneOrManyParse isStr j with
  | some (Json.arr xs) =>
    match jsonStrs xs with
    | some ss => if includesAll requiredTypes ss then some (Json.arr xs) else none
    | none => none
  | _ => none

/-- Acceptance of the default (unconstrained, containment-policy)
credential type schema used by the document schemas. -/
def vcTypeOk (j : Json) : Bool :=
  (credentialTypeContainParse [] j).isSome

/-- Tests whether a JSON value is the given literal string, the acceptance
of a z.literal string schema and the membership test the context
containment refinement performs on parsed string arrays. -/
def strEqB (c : String) (j : Json) : Bool :=
  match j with
  | .str s => s == c
  | _ => false

/-- The jsonLdContextSchema of zod shared/json-ld.ts for a list of mandated
context URIs: a union of (when exactly one URI is mandated) the bare
literal, an array of URI-formatted strings refined to contain every
mandated URI, and a record whose values are each a mandated literal or a
URI-formatted string. -/
def jsonLdContextOk (contexts : List String) (j : Json) : Bool :=
  (match j with
   | .str s =>
     match contexts with
     | [c] => s == c
     | _ => false
   | _ => false) ||
  (match j with
   | .arr xs => xs.all (strOk uriOk) &&
       contexts.all fun c => xs.any (strEqB c)
   | _ => false) ||
  (match j with
   | .obj kvs => kvs.all fun kv =>
       match kv.2 with
       | .str s => contexts.contains s || uriOk s
       | _ => false
   | _ => false)

/-- Core VC Data Model V1 context constant (constants/vc.ts). -/
def vcV1CoreContext : String := "https://www.w3.org/2018/credentials/v1"

/-- Core VC Data Model V2 context constant (constants/vc.ts). -/
def vcV2CoreContext : String := "https://www.w3.org/ns/credentials/v2"

/-- The VcV1ContextSchema of zod vc/v1.ts: the bare V1 core context
literal, or a non-empty string array containing the V1 core context. -/
def vcV1ContextOk (j : Json) : Bool :=
  match j with
  | .str s => s == vcV1CoreContext
  | .arr xs => !xs.isEmpty && xs.all isStr && xs.any (strEqB vcV1CoreContext)
  | _ => false

/-- The at-context field of the V1 credential schemas: a union of
VcV1ContextSchema with an array of VcV1ContextSchema. -/
def vcV1ContextFieldOk (j : Json) : Bool :=
  vcV1ContextOk j ||
    (match j with
     | .arr xs => xs.all vcV1ContextOk
     | _ => false)

/-- The ProofSchema of zod vc/core.ts: an object with a required type
string, a required URI verificationMethod, a required proofPurpose (an
enum union with a free string, hence any string), and optional created,
challenge, domain, nonce, jws, signatureValue and proofValue fields; the
jws field is a custom check running JwsStringSchema. -/
def proofOk (j : Json) : Bool :=
  match j with
  | .obj kvs =>
    reqF kvs "type" isStr &&
    optF kvs "created" (strOk dateTimeStampOk) &&
    reqF kvs "verificationMethod" (strOk uriOk) &&
    reqF kvs "proofPurpose" isStr &&
    optF kvs "challenge" isStr &&
    optF kvs "domain" strOrStrArr &&
    optF kvs "nonce" isStr &&
    optF kvs "jws" (strOk jwsStringOk) &&
    optF kvs "signatureValue" isStr &&
    optF kvs "proofValue" isStr
  | _ => false

/-- The CredentialStatusSchema of zod vc/core.ts: an object with a required
type (enum union with free string, hence any string) and optional id,
statusListCredential, statusListIndex (string or number) and statusPurpose
fields. -/
def credentialStatusOk (j : Json) : Bool :=
  match j with
  | .obj kvs =>
    optF kvs "id" isStr &&
    reqF kvs "type" isStr &&
    optF kvs "statusListCredential" isStr &&
    optF kvs "statusListIndex" (fun v =>
      match v with
      | .str _ => true
      | .num _ => true
      | _ => false) &&
    optF kvs "statusPurpose" isStr
  | _ => false

/-- The CredentialSchemaTypeSchema of zod vc/core.ts: an object with a
required URI id and a required type string. -/
def credentialSchemaTypeOk (j : Json) : Bool :=
  match j with
  | .obj kvs => reqF kvs "id" (strOk uriOk) && reqF kvs "type" isStr
  | _ => false

/-- The GenericResourceSchema of zod vc/core.ts: an object with an optional
id (URI union with free string, hence any string) and a required type that
is a string or an array of strings. -/
def genericResourceOk (j : Json) : Bool :=
  match j with
  | .obj kvs =>
    optF kvs "id" (fun v => strOk uriOk v || isStr v) &&
    reqF kvs "type" strOrStrArr
  | _ => false

/-- The IdOrObjectSchema of zod vc/core.ts: a URI string, or an object with
a required URI id. -/
def idOrObjectOk (j : Json) : Bool :=
  strOk uriOk j ||
    (match j with
     | .obj kvs => reqF kvs "id" (strOk uriOk)
     | _ => false)

/-- The CredentialSubjectSchema of zod vc/core.ts: an object with an
optional id that is a URI or any string; unknown keys are tolerated. -/
def credentialSubjectOk (j : Json) : Bool :=
  match j with
  | .obj kvs => optF kvs "id" (fun v => strOk uriOk v || isStr v)
  | _ => false

/-- Field checks shared by every credential schema through
BaseCredentialSchema (zod vc/core.ts), except the type, credentialSubject
and proof fields which the version-specific schemas override. -/
def baseCredentialFieldsOk (kvs : List (String × Json)) : Bool :=
  optF kvs "id" (strOk uriOk) &&
  reqF kvs "issuer" idOrObjectOk &&
  optF kvs "credentialStatus" (orArr credentialStatusOk) &&
  optF kvs "credentialSchema" (orArr credentialSchemaTypeOk) &&
  optF kvs "evidence" (orArr genericResourceOk) &&
  optF kvs "refreshService" (orArr genericResourceOk) &&
  optF kvs "termsOfUse" (orArr genericResourceOk)

/-- The key set of createVerifiableCredentialV1Schema (zod vc/v1.ts):
the BaseCredentialSchema keys extended with the context, date and proof
fields.  The schema is closed by the final strict call, so any key outside
this list is rejected. -/
def v1CredentialKeys : List String :=
  ["id", "type", "issuer", "credentialStatus", "credentialSchema",
   "credentialSubject", "evidence", "refreshService", "termsOfUse",
   "@context", "issuanceDate", "expirationDate", "proof"]

/-- The createVerifiableCredentialV1Schema of zod vc/v1.ts (default
credential subject, no additional types, no custom context): a strict
object requiring the V1 context, the credential type tag, issuer,
issuanceDate and credentialSubject, with optional expirationDate and
proof, rejecting every unknown key. -/
def verifiableCredentialV1Ok (j : Json) : Bool :=
  match j with
  | .obj kvs =>
    kvs.all (fun kv => v1CredentialKeys.contains kv.1) &&
    baseCredentialFieldsOk kvs &&
    reqF kvs "@context" vcV1ContextFieldOk &&
    reqF kvs "type" vcTypeOk &&
    reqF kvs "issuanceDate" (strOk zodIsoDatetimeOk) &&
    optF kvs "expirationDate" (strOk zodIsoDatetimeOk) &&
    reqF kvs "credentialSubject" (orArr credentialSubjectOk) &&
    optF kvs "proof" (orArr proofOk)
  | _ => false

/-- Field checks of createCredentialV2Schema (zod vc/v2.ts, default
arguments): the V2 context through jsonLdContextSchema, the credential
type tag, optional validFrom and validUntil dates, and the credential
subject, over the shared base fields. -/
def credentialV2FieldsOk (kvs : List (String × Json)) : Bool :=
  baseCredentialFieldsOk kvs &&
  reqF kvs "@context" (jsonLdContextOk [vcV2CoreContext]) &&
  reqF kvs "type" vcTypeOk &&
  optF kvs "validFrom" (strOk zodIsoDatetimeOk) &&
  optF kvs "validUntil" (strOk zodIsoDatetimeOk) &&
  reqF kvs "credentialSubject" (orArr credentialSubjectOk)

/-- The createVerifiableCredentialV2Schema of zod vc/v2.ts: makeVerifiable
(zod vc/core.ts lines 500-507) extends the strict unsigned V2 credential
schema with a required proof and then calls loose, so the resulting object
schema accepts unknown keys and only the field checks remain. -/
def verifiableCredentialV2Ok (j : Json) : Bool :=
  match j with
  | .obj kvs => credentialV2FieldsOk kvs && reqF kvs "proof" (orArr proofOk)
  | _ => false

/-- The createVerifiableCredentialSchema of zod vc/vc.ts: the union of the
V1 and V2 verifiable credential schemas, tried in that order. -/
def verifiableCredentialUnionOk (j : Json) : Bool :=
  verifiableCredentialV1Ok j || verifiableCredentialV2Ok j

/-- Modelled from the spec: the runtime constant list joseSignatureAlgorithms
(imported from constants/algorithms.ts, a file not present in the sources)
is reconstructed from the JoseSignatureAlgorithm type declaration in
types/shared/algorithms.ts, which enumerates every signature algorithm
that requires a cryptographic signature. -/
def joseSignatureAlgorithms : List String :=
  ["HS256", "HS384", "HS512", "RS256", "RS384", "RS512",
   "ES256", "ES256K", "ES384", "ES512", "PS256", "PS384", "PS512", "EdDSA"]

/-- The JwtHeaderBaseSchema fields of valibot jose/jwt.ts, all optional:
typ must be the literal JWT, cty and kid are strings, jku and x5u are
strings passing the engine url check (abstracted as the urlOk parameter),
jwk must pass JsonWebKeySchema (abstracted as the jwkOk parameter), x5c is
an array of base64 strings, x5t and x5t#S256 are base64url strings and
crit is an array of strings.  Unknown keys are ignored by v.object. -/
def jwtHeaderBaseOk (urlOk : String → Bool) (jwkOk : Json → Bool)
    (kvs : List (String × Json)) : Bool :=
  optF kvs "typ" (strEqB "JWT") &&
  optF kvs "cty" isStr &&
  optF kvs "kid" isStr &&
  optF kvs "jku" (strOk urlOk) &&
  optF kvs "jwk" jwkOk &&
  optF kvs "x5u" (strOk urlOk) &&
  optF kvs "x5c" (fun v =>
    match v with
    | .arr xs => xs.all (strOk base64Ok)
    | _ => false) &&
  optF kvs "x5t" (strOk base64UrlOk) &&
  optF kvs "x5t#S256" (strOk base64UrlOk) &&
  optF kvs "crit" (fun v =>
    match v with
    | .arr xs => xs.all isStr
    | _ => false)

/-- The UnixTimestampSchema of valibot jose/jwt.ts: a number that is an
integer and non-negative. -/
def unixTimestampOk (j : Json) : Bool :=
  match j with
  | .num q => q.den == 1 && 0 ≤ q.num
  | _ => false

/-- The JwtPayloadSchema of valibot jose/jwt.ts, a loose object of optional
claims: iss, sub and jti strings, aud a string or string array, and exp,
nbf and iat non-negative integer numbers (v.number piped through
v.integer and v.minValue zero). -/
def jwtPayloadOk (j : Json) : Bool :=
  match j with
  | .obj kvs =>
    optF kvs "iss" isStr &&
    optF kvs "sub" isStr &&
    optF kvs "aud" strOrStrArr &&
    optF kvs "exp" unixTimestampOk &&
    optF kvs "nbf" unixTimestampOk &&
    optF kvs "iat" unixTimestampOk &&
    optF kvs "jti" isStr
  | _ => false

/-- The JwtObjectUnsecuredSchema of valibot jose/jwt.ts: header with the
literal algorithm none plus the base header fields, a JWT payload, and a
signature that is exactly the empty string literal. -/
def jwtObjectUnsecuredOk (urlOk : String → Bool) (jwkOk : Json → Bool)
    (j : Json) : Bool :=
  match j with
  | .obj kvs =>
    reqF kvs "header" (fun h =>
      match h with
      | .obj hk => reqF hk "alg" (strEqB "none") && jwtHeaderBaseOk urlOk jwkOk hk
      | _ => false) &&
    reqF kvs "payload" jwtPayloadOk &&
    reqF kvs "signature" (strEqB "")
  | _ => false

/-- The JwtObjectSignedSchema of valibot jose/jwt.ts: header whose alg is
one of the signature algorithms plus the base header fields, a JWT
payload, and a base64url signature (non-empty by the base64url pattern). -/
def jwtObjectSignedOk (urlOk : String → Bool) (jwkOk : Json → Bool)
    (j : Json) : Bool :=
  match j with
  | .obj kvs =>
    reqF kvs "header" (fun h =>
      match h with
      | .obj hk => reqF hk "alg" (strOk (joseSignatureAlgorithms.contains ·)) &&
          jwtHeaderBaseOk urlOk jwkOk hk
      | _ => false) &&
    reqF kvs "payload" jwtPayloadOk &&
    reqF kvs "signature" (strOk base64UrlOk)
  | _ => false

/-- The JwtObjectSchema of valibot jose/jwt.ts: the union of the unsecured
and the signed JWT object schemas. -/
def jwtObjectOk (urlOk : String → Bool) (jwkOk : Json → Bool) (j : Json) : Bool :=
  jwtObjectUnsecuredOk urlOk jwkOk j || jwtObjectSignedOk urlOk jwkOk j

/-- Builds a parsed-JWT object value from a header, payload and signature. -/
def mkJwtObject (h p : Json) (sig : String) : Json :=
  Json.obj [("header", h), ("payload", p), ("signature", Json.str sig)]

/-- Result of running a zod schema whose transform may throw: a successful
parse, a normal validation rejection, or an exception escaping the
transform. -/
inductive ZodOutcome (α : Type) where
  | ok (a : α)
  | reject
  | crash

/-- The JwtStringPartsSchema of zod jose/jwt-string.ts: the JWT string
regex followed by a transform that splits on dots, destructures the first
three parts (an absent part is modelled by the empty list, as JavaScript
destructuring yields undefined which the emptiness test also catches),
throws when the header or payload part is empty, and otherwise returns the
three parts with a missing signature defaulted to the empty string. -/
def jwtStringPartsParse (s : String) :
    ZodOutcome (List Char × List Char × List Char) :=
  if jwtStringOk s then
    let parts := splitOn '.' s.data
    let header := parts.getD 0 []
    let payload := parts.getD 1 []
    if header.isEmpty || payload.isEmpty then ZodOutcome.crash
    else ZodOutcome.ok (header, payload, parts.getD 2 [])
  else ZodOutcome.reject

/-!
Helper lemmas shared by several claim theorems.
-/

theorem strEqB_iff {c : String} {j : Json} : strEqB c j = true ↔ j = Json.str c := by
  cases j with
  | str s =>
    simp only [strEqB, beq_iff_eq, Json.str.injEq]
  | null => simp [strEqB]
  | bool b => simp [strEqB]
  | num q => simp [strEqB]
  | arr xs => simp [strEqB]
  | obj kvs => simp [strEqB]

theorem jsonStrs_map (ss : List String) : jsonStrs (ss.map Json.str) = some ss := by
  induction ss with
  | nil => rfl
  | cons t ts ih => simp [jsonStrs, ih]

theorem all_isStr_map (ss : List String) : (ss.map Json.str).all isStr = true := by
  induction ss with
  | nil => rfl
  | cons t ts ih => simp [isStr, ih]

theorem eqStrList_iff (xs : List Json) (ts : List String) :
    eqStrList xs ts = true ↔ xs = ts.map Json.str := by
  induction xs generalizing ts with
  | nil => cases ts <;> simp [eqStrList]
  | cons x xs ih =>
    cases ts with
    | nil => cases x <;> simp [eqStrList]
    | cons t ts => cases x <;> simp [eqStrList, ih]

theorem b64_no_dot {l : List Char} (h : l.all b64Char = true) : '.' ∉ l := by
  intro hmem
  have := List.all_eq_true.mp h '.' hmem
  exact absurd this (by decide)

theorem headIsVC_map {ss : List String} :
    headIsVC (ss.map Json.str) = true ↔ ss.head? = some "VerifiableCredential" := by
  cases ss <;> simp [headIsVC]

/-!
Claim theorems.
-/

/-- Claim C5.  Containment symmetry and monotonicity of includesAll: for
every required list R and candidate list A, includesAll R A holds exactly
when every element of R occurs in A; the outcome only depends on the sets
of elements, so it is invariant under permuting R or A; and appending an
extra element to A never turns acceptance into rejection. -/
theorem includesAll_spec (R A : List String) :
    (includesAll R A = true ↔ ∀ r ∈ R, r ∈ A) ∧
    (∀ R' A' : List String, R.Perm R' → A.Perm A' →
        includesAll R A = includesAll R' A') ∧
    (∀ x : String, includesAll R A = true → includesAll R (A ++ [x]) = true) := by
  have base : ∀ R₀ A₀ : List String,
      includesAll R₀ A₀ = true ↔ ∀ r ∈ R₀, r ∈ A₀ := by
    intro R₀ A₀
    simp only [includesAll, List.all_eq_true]
    constructor
    · intro h r hr
      exact List.elem_iff.mp (h r hr)
    · intro h r hr
      exact List.elem_iff.mpr (h r hr)
  refine ⟨base R A, ?_, ?_⟩
  · intro R' A' hR hA
    rw [Bool.eq_iff_iff, base R A, base R' A']
    constructor
    · intro h r hr
      exact (hA.mem_iff).mp (h r (hR.mem_iff.mpr hr))
    · intro h r hr
      exact (hA.mem_iff).mpr (h r (hR.mem_iff.mp hr))
  · intro x h
    rw [base] at h ⊢
    intro r hr
    exact List.mem_append_left _ (h r hr)

/-- Witness for C5 at concrete inputs. -/
theorem includesAll_spec_witness :
    includesAll ["foo"] (["bar", "foo"] ++ ["qux"]) = true :=
  (includesAll_spec ["foo"] ["bar", "foo"]).2.2 "qux" (by decide)

theorem scalar_renorm {p : Json → Bool} {j : Json} (hp : p j = true) :
    oneOrManyParse p (Json.arr (jsFlat j)) = some (Json.arr (jsFlat j)) := by
  by_cases hp2 : p (Json.arr (jsFlat j))
  · unfold oneOrManyParse
    rw [if_pos hp2]
    rfl
  · unfold oneOrManyParse
    rw [if_neg hp2]
    cases j with
    | arr xs => exact absurd hp hp2
    | null => simp [jsFlat, hp]
    | bool b => simp [jsFlat, hp]
    | num q => simp [jsFlat, hp]
    | str t => simp [jsFlat, hp]
    | obj kvs => simp [jsFlat, hp]

/-- Claim C6.  Idempotence of one-or-many normalization: for every element
schema, an accepted array input is returned unchanged, a bare non-array
value accepted by the element schema is returned as the one-element array
containing it, and re-normalizing any output of the combinator never
changes it. -/
theorem oneOrMany_spec (p : Json → Bool) :
    (∀ xs : List Json, (oneOrManyParse p (Json.arr xs)).isSome = true →
        oneOrManyParse p (Json.arr xs) = some (Json.arr xs)) ∧
    (∀ j : Json, (∀ xs, j ≠ Json.arr xs) → p j = true →
        oneOrManyParse p j = some (Json.arr [j])) ∧
    (∀ j r : Json, oneOrManyParse p j = some r → oneOrManyParse p r = some r) := by
  have harr : ∀ xs : List Json, (oneOrManyParse p (Json.arr xs)).isSome = true →
      oneOrManyParse p (Json.arr xs) = some (Json.arr xs) := by
    intro xs h
    by_cases hp : p (Json.arr xs)
    · simp [oneOrManyParse, hp, jsFlat]
    · simp only [oneOrManyParse, hp, Bool.false_eq_true, if_false] at h ⊢
      by_cases hall : xs.all p
      · simp [hall]
      · simp [hall] at h
  refine ⟨harr, ?_, ?_⟩
  · intro j hnotarr hp
    cases j with
    | arr xs => exact absurd rfl (hnotarr xs)
    | null => simp [oneOrManyParse, hp, jsFlat]
    | bool b => simp [oneOrManyParse, hp, jsFlat]
    | num q => simp [oneOrManyParse, hp, jsFlat]
    | str t => simp [oneOrManyParse, hp, jsFlat]
    | obj kvs => simp [oneOrManyParse, hp, jsFlat]
  · intro j r h
    have hchar : r = Json.arr (jsFlat j) ∧
        (p j = true ∨ ∃ xs, j = Json.arr xs ∧ xs.all p = true) := by
      by_cases hp : p j
      · unfold oneOrManyParse at h
        rw [if_pos hp] at h
        exact ⟨(Option.some_inj.mp h).symm, Or.inl hp⟩
      · cases j with
        | arr xs =>
          simp only [oneOrManyParse, hp, Bool.false_eq_true, if_false] at h
          by_cases hall : xs.all p
          · simp only [hall, if_true] at h
            exact ⟨(Option.some_inj.mp h).symm, Or.inr ⟨xs, rfl, hall⟩⟩
          · simp [hall] at h
        | null => simp [oneOrManyParse, hp] at h
        | bool b => simp [oneOrManyParse, hp] at h
        | num q => simp [oneOrManyParse, hp] at h
        | str t => simp [oneOrManyParse, hp] at h
        | obj kvs => simp [oneOrManyParse, hp] at h
    rcases hchar with ⟨rfl, hcase⟩
    rcases hcase with hp | ⟨xs, rfl, hall⟩
    · cases j with
      | arr xs =>
        simp only [jsFlat]
        simp [oneOrManyParse, hp, jsFlat]
      | null => exact scalar_renorm hp
      | bool b => exact scalar_renorm hp
      | num q => exact scalar_renorm hp
      | str t => exact scalar_renorm hp
      | obj kvs => exact scalar_renorm hp
    · simp only [jsFlat]
      by_cases hp2 : p (Json.arr xs)
      · simp [oneOrManyParse, hp2, jsFlat]
      · simp [oneOrManyParse, hp2, hall]

/-- Witness for C6 at a concrete bare-scalar input. -/
theorem oneOrMany_spec_witness :
    oneOrManyParse isStr (Json.str "foo") = some (Json.arr [Json.str "foo"]) :=
  (oneOrMany_spec isStr).2.1 (Json.str "foo")
    (fun _ h => Json.noConfusion h) rfl

/-- Claim C2 (amended).  Unconstrained-mode credential type-tag
validation, zod policy: credentialTypeParse accepts the bare mandatory tag
(wrapping it as a one-element array), accepts every non-empty string array
whose first element is the mandatory tag returning it unchanged, and
rejects other bare strings, the empty array, string arrays whose first
element is not the mandatory tag, and non-string non-array inputs.  The
containment-policy variant shared by valibot and the second zod file
instead accepts a string array exactly when the mandatory tag occurs
anywhere in it, and wraps a bare tag string into a one-element array. -/
theorem credentialType_unconstrained_spec :
    (credentialTypeParse (Json.str "VerifiableCredential") =
        some (Json.arr [Json.str "VerifiableCredential"])) ∧
    (∀ s : String, s ≠ "VerifiableCredential" →
        credentialTypeParse (Json.str s) = none) ∧
    (∀ ss : List String, ss.head? = some "VerifiableCredential" →
        credentialTypeParse (Json.arr (ss.map Json.str)) =
          some (Json.arr (ss.map Json.str))) ∧
    (credentialTypeParse (Json.arr []) = none) ∧
    (∀ ss : List String, ss.head? ≠ some "VerifiableCredential" →
        credentialTypeParse (Json.arr (ss.map Json.str)) = none) ∧
    (∀ j : Json, (∀ t, j ≠ Json.str t) → (∀ xs, j ≠ Json.arr xs) →
        credentialTypeParse j = none) ∧
    (∀ ss : List String,
        (credentialTypeContainParse [] (Json.arr (ss.map Json.str))).isSome
          = true ↔ "VerifiableCredential" ∈ ss) := by
  refine ⟨rfl, ?_, ?_, rfl, ?_, ?_, ?_⟩
  · intro t ht
    simp [credentialTypeParse, ht]
  · intro ss hh
    cases ss with
    | nil => simp at hh
    | cons a tl =>
      have ha : a = "VerifiableCredential" := by simpa using hh
      subst ha
      simp [credentialTypeParse, headIsVC, all_isStr_map ("VerifiableCredential" :: tl)]
      intro _
      exact ⟨rfl, fun x _ => rfl⟩
  · intro ss hh
    cases ss with
    | nil => rfl
    | cons a tl =>
      have ha : a ≠ "VerifiableCredential" := by simpa using hh
      simp [credentialTypeParse, eqStrList, headIsVC, ha]
  · intro j h1 h2
    cases j with
    | str t => exact absurd rfl (h1 t)
    | arr xs => exact absurd rfl (h2 xs)
    | null => rfl
    | bool b => rfl
    | num q => rfl
    | obj kvs => rfl
  · intro ss
    have h1 : oneOrManyParse isStr (Json.arr (ss.map Json.str)) =
        some (Json.arr (ss.map Json.str)) := by
      unfold oneOrManyParse
      rw [if_neg (by simp [isStr])]
      simp [all_isStr_map]
    unfold credentialTypeContainParse
    rw [h1]
    simp only [jsonStrs_map]
    by_cases hc : "VerifiableCredential" ∈ ss
    · simp [includesAll, List.elem_iff, hc]
    · simp [includesAll, List.elem_iff, hc]

/-- Witness for C2 at concrete rejected inputs of the zod schema. -/
theorem credentialType_unconstrained_spec_witness :
    credentialTypeParse (Json.str "SomethingElse") = none ∧
    credentialTypeParse
        (Json.arr [Json.str "UniversityDegreeCredential",
                   Json.str "VerifiableCredential"]) = none := by
  refine ⟨credentialType_unconstrained_spec.2.1 "SomethingElse" (by decide), ?_⟩
  have h := credentialType_unconstrained_spec.2.2.2.2.1
    ["UniversityDegreeCredential", "VerifiableCredential"] (by decide)
  simpa using h

/-- Counterexample for C2: the containment-policy credentialTypeSchema of
valibot vc/core.ts (and the second zod variant) accepts the array whose
first element is not VerifiableCredential, which the claim says every
variant rejects. -/
theorem credentialType_nonfirst_tag_accepted :
    credentialTypeContainParse []
        (Json.arr [Json.str "UniversityDegreeCredential",
                   Json.str "VerifiableCredential"]) =
      some (Json.arr [Json.str "UniversityDegreeCredential",
                      Json.str "VerifiableCredential"]) := by
  rfl

/-- Claim C3 (amended).  Constrained-mode credential type-tag validation,
zod policy: for every non-empty list of declared additional types the
tuple schema accepts exactly the array consisting of VerifiableCredential
followed by the declared additional tags in the declared order; in
particular extra tags, reorderings and bare strings are rejected.  The
valibot containment-policy variant instead tolerates extra tags and any
order (see the counterexample). -/
theorem credentialType_constrained_spec (additionalTypes : List String)
    (_hne : additionalTypes ≠ []) (j : Json) :
    credentialTypeTupleOk additionalTypes j = true ↔
      j = Json.arr (("VerifiableCredential" :: additionalTypes).map Json.str) := by
  cases j with
  | arr xs => simp [credentialTypeTupleOk, eqStrList_iff]
  | str t => simp [credentialTypeTupleOk]
  | null => simp [credentialTypeTupleOk]
  | bool b => simp [credentialTypeTupleOk]
  | num q => simp [credentialTypeTupleOk]
  | obj kvs => simp [credentialTypeTupleOk]

/-- Witness for C3 at the status-list tuple. -/
theorem credentialType_constrained_spec_witness :
    credentialTypeTupleOk ["StatusList2021Credential"]
        (Json.arr [Json.str "VerifiableCredential",
                   Json.str "StatusList2021Credential"]) = true :=
  (credentialType_constrained_spec ["StatusList2021Credential"]
    (by decide) _).mpr rfl

/-- Counterexample for C3: with declared additional type
StatusList2021Credential, the containment-policy credentialTypeSchema of
valibot vc/core.ts accepts an array carrying an extra free-form tag and an
array in reversed order, both of which the claim says are rejected. -/
theorem credentialType_extra_tag_accepted :
    (credentialTypeContainParse ["StatusList2021Credential"]
        (Json.arr [Json.str "VerifiableCredential",
                   Json.str "StatusList2021Credential",
                   Json.str "Extra"])).isSome = true ∧
    (credentialTypeContainParse ["StatusList2021Credential"]
        (Json.arr [Json.str "StatusList2021Credential",
                   Json.str "VerifiableCredential"])).isSome = true := by
  exact ⟨rfl, rfl⟩

theorem any_strEqB_iff {c : String} {xs : List Json} :
    xs.any (strEqB c) = true ↔ Json.str c ∈ xs := by
  rw [List.any_eq_true]
  constructor
  · rintro ⟨x, hx, hEq⟩
    rw [← strEqB_iff.mp hEq]
    exact hx
  · intro h
    exact ⟨Json.str c, h, strEqB_iff.mpr rfl⟩

theorem jsonLdContext_arr_iff (contexts : List String) (xs : List Json) :
    jsonLdContextOk contexts (Json.arr xs) = true ↔
      (xs.all (strOk uriOk) = true ∧ ∀ c ∈ contexts, Json.str c ∈ xs) := by
  simp only [jsonLdContextOk, Bool.false_or, Bool.or_false, Bool.and_eq_true,
    List.all_eq_true, any_strEqB_iff]

theorem jsonLdContext_arr_empty_false {contexts : List String}
    (hne : contexts ≠ []) :
    jsonLdContextOk contexts (Json.arr []) = false := by
  rw [Bool.eq_false_iff]
  intro h
  obtain ⟨-, hmem⟩ := (jsonLdContext_arr_iff contexts []).mp h
  rcases contexts with _ | ⟨c, cs⟩
  · exact hne rfl
  · exact List.not_mem_nil _ (hmem c (List.mem_cons_self c cs))

/-- Claim C4 (amended).  JSON-LD context validation by containment: for
every non-empty list of mandated context URIs, an array input is accepted
exactly when every element is a URI-formatted string and every mandated
URI is a member of the array (order irrelevant, extra URI-formatted
entries allowed); an array containing a non-URI extra entry is rejected
even when every mandated URI is a member.  The empty array is always
rejected; a one-element array holding the mandated URI is accepted; and
with exactly one mandated URI the bare string equal to it is accepted. -/
theorem jsonLdContext_spec (contexts : List String) (hne : contexts ≠ []) :
    (∀ xs : List Json, jsonLdContextOk contexts (Json.arr xs) = true ↔
        (xs.all (strOk uriOk) = true ∧ ∀ c ∈ contexts, Json.str c ∈ xs)) ∧
    jsonLdContextOk contexts (Json.arr []) = false ∧
    (∀ c : String, contexts = [c] → uriOk c = true →
        jsonLdContextOk contexts (Json.str c) = true ∧
        jsonLdContextOk contexts (Json.arr [Json.str c]) = true) := by
  refine ⟨jsonLdContext_arr_iff contexts, jsonLdContext_arr_empty_false hne, ?_⟩
  intro c hceq huri
  subst hceq
  constructor
  · simp [jsonLdContextOk]
  · refine (jsonLdContext_arr_iff _ _).mpr ⟨?_, ?_⟩
    · simp [strOk, huri]
    · intro c' hc'
      rw [List.mem_singleton] at hc'
      subst hc'
      exact List.mem_singleton.mpr rfl

/-- Witness for C4: the single-V1-context schema rejects the empty array
and accepts the bare V1 context string. -/
theorem jsonLdContext_spec_witness :
    jsonLdContextOk [vcV1CoreContext] (Json.arr []) = false ∧
    jsonLdContextOk [vcV1CoreContext] (Json.str vcV1CoreContext) = true := by
  have h := jsonLdContext_spec [vcV1CoreContext] (by decide)
  exact ⟨h.2.1, (h.2.2 vcV1CoreContext rfl (by decide)).1⟩

/-- Counterexample for C4: an array containing the mandated V1 context URI
together with a non-URI string is rejected although every mandated URI is
a member of the array, refuting the claimed iff. -/
theorem jsonLdContext_nonuri_extra_rejected :
    jsonLdContextOk [vcV1CoreContext]
        (Json.arr [Json.str vcV1CoreContext, Json.str "not a uri"]) = false ∧
    Json.str vcV1CoreContext ∈
      [Json.str vcV1CoreContext, Json.str "not a uri"] := by
  exact ⟨by decide, List.mem_cons_self _ _⟩

/-- Claim C10.  Map-shaped context inputs bypass the mandated-context
containment check: for every non-empty list of mandated context URIs, the
record branch of jsonLdContextSchema accepts any string-keyed object whose
values are all URI-formatted strings, with no requirement that any
mandated URI occur among them; in particular the empty object is accepted,
while the empty array is rejected. -/
theorem jsonLdContext_record_bypass (contexts : List String)
    (hne : contexts ≠ []) :
    (∀ kvs : List (String × Json),
        (∀ kv ∈ kvs, ∃ t, kv.2 = Json.str t ∧ uriOk t = true) →
        jsonLdContextOk contexts (Json.obj kvs) = true) ∧
    jsonLdContextOk contexts (Json.obj []) = true ∧
    jsonLdContextOk contexts (Json.arr []) = false := by
  refine ⟨?_, ?_, jsonLdContext_arr_empty_false hne⟩
  · intro kvs hvals
    simp only [jsonLdContextOk, Bool.false_or, Bool.or_false]
    have : kvs.all (fun kv =>
        match kv.2 with
        | Json.str t => contexts.contains t || uriOk t
        | _ => false) = true := by
      rw [List.all_eq_true]
      intro kv hkv
      obtain ⟨t, ht, hu⟩ := hvals kv hkv
      rw [ht]
      simp [hu]
    exact this
  · rfl

/-- Witness for C10: with the V1 context mandated, an object carrying only
an unrelated URI value and the empty object are both accepted. -/
theorem jsonLdContext_record_bypass_witness :
    jsonLdContextOk [vcV1CoreContext]
        (Json.obj [("custom", Json.str "https://example.com/ctx")]) = true ∧
    jsonLdContextOk [vcV1CoreContext] (Json.obj []) = true := by
  have h := jsonLdContext_record_bypass [vcV1CoreContext] (by decide)
  refine ⟨h.1 _ ?_, h.2.1⟩
  intro kv hkv
  rw [List.mem_singleton] at hkv
  subst hkv
  exact ⟨"https://example.com/ctx", rfl, by decide⟩

theorem isEmpty_false_of_ne {l : List Char} (h : l ≠ []) : l.isEmpty = false := by
  cases l with
  | nil => exact absurd rfl h
  | cons a as => rfl

theorem ne_of_isEmpty_false {l : List Char} (h : l.isEmpty = false) : l ≠ [] := by
  cases l with
  | nil => simp at h
  | cons a as => simp

/-- Claim C7.  JWT signature and algorithm coupling in the parsed JWT
object schema, for any url and key validators of the engine and any
well-formed payload: the algorithm none demands exactly the empty-string
signature, while a signature algorithm such as HS256 demands a non-empty
base64url signature. -/
theorem jwtObject_alg_signature_coupling (urlOk : String → Bool)
    (jwkOk : Json → Bool) (payload : Json) (sig : String)
    (hpl : jwtPayloadOk payload = true) :
    jwtObjectOk urlOk jwkOk
        (mkJwtObject (Json.obj [("alg", Json.str "none")]) payload "") = true ∧
    (sig ≠ "" → jwtObjectOk urlOk jwkOk
        (mkJwtObject (Json.obj [("alg", Json.str "none")]) payload sig) = false) ∧
    jwtObjectOk urlOk jwkOk
        (mkJwtObject (Json.obj [("alg", Json.str "HS256")]) payload "") = false ∧
    (base64UrlOk sig = true → jwtObjectOk urlOk jwkOk
        (mkJwtObject (Json.obj [("alg", Json.str "HS256")]) payload sig) = true) := by
  refine ⟨?_, ?_, ?_, ?_⟩
  · have e : jwtObjectOk urlOk jwkOk
        (mkJwtObject (Json.obj [("alg", Json.str "none")]) payload "") =
        (jwtPayloadOk payload && true || false) := rfl
    rw [e, hpl]
    rfl
  · intro hsig
    have e : jwtObjectOk urlOk jwkOk
        (mkJwtObject (Json.obj [("alg", Json.str "none")]) payload sig) =
        (jwtPayloadOk payload && (sig == "") || false) := rfl
    rw [e, hpl]
    simp [hsig]
  · have e : jwtObjectOk urlOk jwkOk
        (mkJwtObject (Json.obj [("alg", Json.str "HS256")]) payload "") =
        (false || (jwtPayloadOk payload && false)) := rfl
    rw [e, hpl]
    rfl
  · intro hb64
    have e : jwtObjectOk urlOk jwkOk
        (mkJwtObject (Json.obj [("alg", Json.str "HS256")]) payload sig) =
        (false || (jwtPayloadOk payload && base64UrlOk sig)) := rfl
    rw [e, hpl, hb64]
    rfl

/-- Witness for C7 at the empty payload and a concrete signature. -/
theorem jwtObject_alg_signature_coupling_witness :
    jwtObjectOk (fun _ => false) (fun _ => false)
        (mkJwtObject (Json.obj [("alg", Json.str "none")]) (Json.obj []) "")
        = true ∧
    jwtObjectOk (fun _ => false) (fun _ => false)
        (mkJwtObject (Json.obj [("alg", Json.str "none")]) (Json.obj []) "abc")
        = false ∧
    jwtObjectOk (fun _ => false) (fun _ => false)
        (mkJwtObject (Json.obj [("alg", Json.str "HS256")]) (Json.obj []) "")
        = false ∧
    jwtObjectOk (fun _ => false) (fun _ => false)
        (mkJwtObject (Json.obj [("alg", Json.str "HS256")]) (Json.obj []) "abc")
        = true := by
  have h := jwtObject_alg_signature_coupling (fun _ => false) (fun _ => false)
    (Json.obj []) "abc" (by decide)
  exact ⟨h.1, h.2.1 (by decide), h.2.2.1, h.2.2.2 (by decide)⟩

/-- Claim C8.  JWS compact-string segment rule: a string is accepted by the
JWS string schema exactly when it decomposes into three dot-separated
base64url segments with non-empty header and signature, the decomposition
always has exactly three parts, and among accepted strings the middle
segment is empty exactly for the strings of the detached JWS schema. -/
theorem jwsString_spec (s : String) :
    (jwsStringOk s = true ↔ ∃ h p g : List Char,
        s.data = h ++ '.' :: (p ++ '.' :: g) ∧ h ≠ [] ∧ g ≠ [] ∧
        h.all b64Char = true ∧ p.all b64Char = true ∧ g.all b64Char = true) ∧
    (jwsStringOk s = true → (splitOn '.' s.data).length = 3) ∧
    (∀ h p g : List Char, splitOn '.' s.data = [h, p, g] →
        jwsStringOk s = true → (p = [] ↔ detachedJwsOk s = true)) := by
  refine ⟨⟨?_, ?_⟩, ?_, ?_⟩
  · intro hok
    unfold jwsStringOk at hok
    rcases hs : splitOn '.' s.data with _ | ⟨a, _ | ⟨b, _ | ⟨c, _ | ⟨d, rest⟩⟩⟩⟩ <;>
      rw [hs] at hok
    · simp at hok
    · simp at hok
    · simp at hok
    · simp only [Bool.and_eq_true, Bool.not_eq_true'] at hok
      obtain ⟨⟨⟨⟨ha, hc⟩, hab⟩, hbb⟩, hcb⟩ := hok
      obtain ⟨hdeco, -, -, -⟩ := splitOn_eq_three_iff.mp hs
      exact ⟨a, b, c, hdeco, ne_of_isEmpty_false ha, ne_of_isEmpty_false hc,
        hab, hbb, hcb⟩
    · simp at hok
  · rintro ⟨h, q, g, hdeco, hh, hg, hhb, hqb, hgb⟩
    have hsplit : splitOn '.' s.data = [h, q, g] :=
      splitOn_eq_three_iff.mpr ⟨hdeco, b64_no_dot hhb, b64_no_dot hqb,
        b64_no_dot hgb⟩
    unfold jwsStringOk
    rw [hsplit]
    simp [isEmpty_false_of_ne hh, isEmpty_false_of_ne hg, hhb, hqb, hgb]
  · intro hok
    unfold jwsStringOk at hok
    rcases hs : splitOn '.' s.data with _ | ⟨a, _ | ⟨b, _ | ⟨c, _ | ⟨d, rest⟩⟩⟩⟩ <;>
      rw [hs] at hok
    · simp at hok
    · simp at hok
    · simp at hok
    · rfl
    · simp at hok
  · intro h q g hsplit hok
    unfold jwsStringOk at hok
    rw [hsplit] at hok
    simp only [Bool.and_eq_true, Bool.not_eq_true'] at hok
    obtain ⟨⟨⟨⟨hh, hg⟩, hhb⟩, hqb⟩, hgb⟩ := hok
    constructor
    · intro hq
      subst hq
      unfold detachedJwsOk
      rw [hsplit]
      simp [hh, hg, hhb, hgb]
    · intro hd
      unfold detachedJwsOk at hd
      rw [hsplit] at hd
      simp only [Bool.and_eq_true] at hd
      exact List.isEmpty_iff.mp hd.1.1.1.2

/-- Witness for C8: a concrete detached-form string has an empty middle
segment and a concrete ordinary JWS string decomposes as claimed. -/
theorem jwsString_spec_witness :
    detachedJwsOk "abc..xyz" = true ∧ jwsStringOk "a.b.c" = true := by
  constructor
  · exact ((jwsString_spec "abc..xyz").2.2 "abc".data [] "xyz".data
      (by decide) (by decide)).mp rfl
  · exact (jwsString_spec "a.b.c").1.mpr
      ⟨"a".data, "b".data, "c".data, by decide, by decide, by decide,
        by decide, by decide, by decide⟩

/-- Claim C9.  Validation never crashes: for every string input,
JwtStringPartsSchema either returns the three split parts or rejects
normally; the throw branch of its transform is unreachable because every
string accepted by the JWT regex has non-empty first and second
dot-separated segments. -/
theorem jwtStringParts_no_crash (s : String) :
    (∃ parts, jwtStringPartsParse s = ZodOutcome.ok parts) ∨
      jwtStringPartsParse s = ZodOutcome.reject := by
  by_cases hok : jwtStringOk s
  · left
    have hcase := hok
    unfold jwtStringOk at hcase
    rcases hs : splitOn '.' s.data with _ | ⟨a, _ | ⟨b, _ | ⟨c, _ | ⟨d, rest⟩⟩⟩⟩ <;>
      rw [hs] at hcase
    · simp at hcase
    · simp at hcase
    · simp at hcase
    · simp only [Bool.and_eq_true, Bool.not_eq_true'] at hcase
      obtain ⟨⟨⟨⟨ha, hb⟩, -⟩, -⟩, -⟩ := hcase
      refine ⟨(a, b, c), ?_⟩
      unfold jwtStringPartsParse
      rw [if_pos hok, hs]
      simp [List.getD, ha, hb]
    · simp at hcase
  · right
    unfold jwtStringPartsParse
    rw [if_neg hok]

/-- A concrete credential object carrying both an issuanceDate and a
validFrom field, together with a valid V2 context, type, issuer,
credential subject and proof. -/
def bothDatesVcFields : List (String × Json) :=
  [("@context", Json.str "https://www.w3.org/ns/credentials/v2"),
   ("type", Json.str "VerifiableCredential"),
   ("issuer", Json.str "did:example:123"),
   ("issuanceDate", Json.str "2023-01-01T00:00:00Z"),
   ("validFrom", Json.str "2023-01-01T00:00:00Z"),
   ("credentialSubject", Json.obj []),
   ("proof", Json.obj
     [("type", Json.str "JsonWebSignature2020"),
      ("verificationMethod", Json.str "did:example:123#key-1"),
      ("proofPurpose", Json.str "assertionMethod")])]

/-- Counterexample for C1: the both-dates credential is accepted by the
combined V1-or-V2 VerifiableCredential union, through the V2 branch that
makeVerifiable turned into a loose object, although the claim says every
such credential is rejected by the union. -/
theorem vc_union_accepts_both_dates :
    verifiableCredentialUnionOk (Json.obj bothDatesVcFields) = true ∧
    (getField bothDatesVcFields "issuanceDate").isSome = true ∧
    (getField bothDatesVcFields "validFrom").isSome = true :=
  ⟨by decide, by decide, by decide⟩

/-- Claim C1 (amended).  Version exclusivity holds at the V1 schema but not
at the union: every credential object carrying both an issuanceDate and a
validFrom field fails the strict V1 verifiable-credential schema, so the
combined union degenerates to the V2 branch alone; the V2 branch, made
loose by makeVerifiable, can still accept such a document (see the
counterexample), so the union rejects a both-dates document only when the
V2 schema does. -/
theorem vc_both_dates_exclusivity (kvs : List (String × Json))
    (_hiss : (getField kvs "issuanceDate").isSome = true)
    (hvf : (getField kvs "validFrom").isSome = true) :
    verifiableCredentialV1Ok (Json.obj kvs) = false ∧
    verifiableCredentialUnionOk (Json.obj kvs) =
      verifiableCredentialV2Ok (Json.obj kvs) := by
  have hkey : kvs.all (fun kv => v1CredentialKeys.contains kv.1) = false := by
    rw [Bool.eq_false_iff]
    intro hall
    unfold getField at hvf
    rcases hfind : List.find? (fun kv => kv.1 == "validFrom") kvs with _ | kv
    · rw [hfind] at hvf
      simp at hvf
    have hmem := List.mem_of_find?_eq_some hfind
    have hpred := List.find?_some hfind
    have hkeq : kv.1 = "validFrom" := by simpa using hpred
    have hcontains := List.all_eq_true.mp hall kv hmem
    rw [hkeq] at hcontains
    exact absurd hcontains (by decide)
  have hv1 : verifiableCredentialV1Ok (Json.obj kvs) = false := by
    simp only [verifiableCredentialV1Ok]
    rw [hkey]
    simp
  refine ⟨hv1, ?_⟩
  unfold verifiableCredentialUnionOk
  rw [hv1, Bool.false_or]

/-- Witness for C1 at the concrete both-dates credential. -/
theorem vc_both_dates_exclusivity_witness :
    verifiableCredentialV1Ok (Json.obj bothDatesVcFields) = false ∧
    verifiableCredentialUnionOk (Json.obj bothDatesVcFields) =
      verifiableCredentialV2Ok (Json.obj bothDatesVcFields) :=
  vc_both_dates_exclusivity bothDatesVcFields (by decide) (by decide)

end WebIdentity
